import Mathlib

/-!
Shallow embedding of `crates/ra_assists/src/add_missing_impl_members.rs`:
the "add missing impl members" assist. The assist finds the trait functions
not yet implemented by an impl block, synthesizes placeholder stubs for
them, and emits a single text edit plus a new cursor offset.

Node kinds, typed items and ranges are embedded as plain Lean data; the
external collaborators (parser, name resolution, `ra_fmt`) are modelled
where noted, from the spec's description of their contracts.
-/

set_option autoImplicit false

/-- Byte range of a node in the document, as in `TextRange` of `ra_syntax`:
`start` inclusive, `stop` exclusive. -/
structure TextRange where
  start : Nat
  stop : Nat
  deriving DecidableEq, Repr

/-- The node kinds the assist inspects.  `build_func_body` tests a child's
kind against `SEMI`; the item list's raw children include `WHITESPACE`
leaves; `FnDef::name` finds the `NAME` child.  All other kinds are
behaviourally identical to `OTHER` for this code. -/
inductive NodeKind where
  | SEMI
  | WHITESPACE
  | NAME
  | FN_KW
  | PARAM_LIST
  | RET_TYPE
  | BLOCK
  | COMMENT
  | OTHER
  deriving DecidableEq, Repr

/-- One direct child of a `FnDef` node: its kind and its source text, as
consumed by `build_func_body` (`child.kind()` and `child.text()`). -/
structure Child where
  kind : NodeKind
  text : String
  deriving DecidableEq, Repr

/-- A function declaration node (`ast::FnDef`): the ordered list of its
direct children. -/
structure FnDef where
  children : List Child
  deriving DecidableEq, Repr

/-- Models `FnDef::name(def).map(ast::Name::text)`: the text of the first
`NAME` child, if any (`NameOwner::name` finds the name node among the
children). -/
def def_name (d : FnDef) : Option String :=
  (d.children.find? (fun c => c.kind == NodeKind.NAME)).map Child.text

/-- Body-terminator classification of the spec's `FunctionSignature`. -/
inductive Terminator where
  | bodyPresent
  | bodyAbsent
  deriving DecidableEq, Repr

/-- Modelled from the spec: the signature extractor's terminator field
(the typed `ra_syntax` layer is not under `src/`).  Per the spec, the
terminator is `BodyAbsent` if the declaration ends in a bare terminator
token (the semicolon), `BodyPresent` otherwise. -/
def FnDef.terminator (d : FnDef) : Terminator :=
  match d.children.getLast? with
  | some c => if c.kind == NodeKind.SEMI then Terminator.bodyAbsent else Terminator.bodyPresent
  | none => Terminator.bodyPresent

/-- The kind of an impl/trait item (`ast::ImplItemKind`): a function, an
associated type, or an associated const.  Non-function payloads keep only
their text, which the assist never reads. -/
inductive ImplItemKind where
  | fnDef (d : FnDef)
  | typeDef (text : String)
  | constDef (text : String)
  deriving DecidableEq, Repr

/-- A typed impl/trait item (`ast::ImplItem`).  `leadingIndent` is
modelled from the spec: it caches the result of `ra_fmt::leading_indent`
on the item's node (that crate is not under `src/`) — the horizontal
whitespace after the last newline preceding the node.  The backward walk
over previous leaves crosses node boundaries (past braces and plain
spaces) and stops only at a non-whitespace leaf containing a newline, so
the field is `none` only when no newline-bearing whitespace precedes the
node in the document at all. -/
structure ImplItem where
  kind : ImplItemKind
  leadingIndent : Option String
  deriving DecidableEq, Repr

/-- One raw child of an item list node: a whitespace leaf, a typed item,
or any other token (braces, comments, ...). -/
inductive ListChild where
  | whitespace (range : TextRange) (text : String)
  | implItem (item : ImplItem)
  | token (kind : NodeKind) (range : TextRange)
  deriving DecidableEq, Repr

/-- An item list node (`ast::ItemList`): its raw children in source
order. -/
structure ItemList where
  children : List ListChild
  deriving DecidableEq, Repr

/-- Models `ItemList::impl_items()`: the children castable to
`ast::ImplItem`, in source order. -/
def ItemList.impl_items (l : ItemList) : List ImplItem :=
  l.children.filterMap (fun c =>
    match c with
    | ListChild.implItem i => some i
    | _ => none)

/-- Models `item_list.syntax().children().filter_map(Whitespace::cast).last()`
(the range of the resulting node): the range of the last whitespace child
of the item list, if any. -/
def ItemList.lastWhitespaceRange (l : ItemList) : Option TextRange :=
  (l.children.filterMap (fun c =>
    match c with
    | ListChild.whitespace r _ => some r
    | _ => none)).getLast?

/-- An impl block node (`ast::ImplBlock`): its full range, its optional
item list child, and — modelled from the spec, as for `ImplItem` — the
cached `ra_fmt::leading_indent` of the node. -/
structure ImplBlock where
  range : TextRange
  itemList? : Option ItemList
  leadingIndent : Option String
  deriving DecidableEq, Repr

/-- The resolved trait declaration (`ast::TraitDef`):
`trait_def.syntax().descendants().find_map(ItemList::cast)` is embedded
as the optional first item-list descendant. -/
structure TraitDef where
  itemList? : Option ItemList
  deriving DecidableEq, Repr

/-- The assist context, reduced to what the function reads: the covering
node's range (`ctx.covering_node().range()`), the innermost `ImplBlock`
ancestor of the covering node
(`node.ancestors().find_map(ast::ImplBlock::cast)`), and the outcome of
`resolve_target_trait_def` (name resolution is an external collaborator;
the resolver either yields the trait's declaration node or fails). -/
structure AssistCtx where
  nodeRange : TextRange
  implAncestor? : Option ImplBlock
  resolvedTrait? : Option TraitDef
  deriving DecidableEq, Repr

/-- The emitted assist: one replacement edit (`edit.replace`) and the new
cursor offset (`edit.set_cursor`). -/
structure Assist where
  editRange : TextRange
  editText : String
  cursor : Nat
  deriving DecidableEq, Repr

/-- Concatenation of a list of strings, as the Rust loop pushing each
chunk onto a `String` buffer. -/
def cat : List String → String
  | [] => ""
  | s :: rest => s ++ cat rest

/-- Drops the longest whitespace suffix of a character list. -/
def dropTrailingWs : List Char → List Char
  | [] => []
  | c :: rest =>
    match dropTrailingWs rest with
    | [] => if c.isWhitespace then [] else [c]
    | r => c :: r

/-- Models `str::trim_end`: the string without its trailing whitespace
characters. -/
def trim_end (s : String) : String :=
  String.mk (dropTrailingWs s.data)

/-- Splits a character list at every newline character; the newline
separators are dropped, empty segments are kept. -/
def split_newlines : List Char → List (List Char)
  | [] => [[]]
  | c :: rest =>
    let r := split_newlines rest
    if c = '\n' then [] :: r
    else
      match r with
      | [] => [[c]]
      | g :: gs => (c :: g) :: gs

/-- Models `itertools`' `join`: the chunks interleaved with the
separator. -/
def join_sep (sep : String) : List String → String
  | [] => ""
  | [s] => s
  | s :: rest => s ++ sep ++ join_sep sep rest

/-- Models `TextUnit::of_str`: the text length in bytes (UTF-8). -/
def text_unit_of_str (s : String) : Nat :=
  s.utf8ByteSize

/-- The chunk each child of a `FnDef` contributes to the stub: the fixed
placeholder body for the `SEMI` child, the child's own text otherwise. -/
def body_chunks (d : FnDef) : List String :=
  d.children.map (fun c =>
    if c.kind == NodeKind.SEMI then " { unimplemented!() }" else c.text)

/-- Embeds `build_func_body`: re-emit every child's text, replacing the
semicolon child by the placeholder body, then trim trailing whitespace of
the whole buffer (`buf.trim_end()`). -/
def build_func_body (d : FnDef) : String :=
  trim_end (cat (body_chunks d))

/-- Embeds the closure `fn_def_opt`: keep only function items. -/
def fn_def_opt : ImplItemKind → Option FnDef
  | ImplItemKind.fnDef d => some d
  | _ => none

/-- The function signatures extracted from an item list:
`items.map(ImplItem::kind).filter_map(fn_def_opt)`, used for both the
trait's and the impl's side. -/
def item_fns (l : ItemList) : List FnDef :=
  (l.impl_items.map ImplItem.kind).filterMap fn_def_opt

/-- Embeds the missing-member diff:
`trait_fns.filter(|t| impl_fns.iter().all(|i| def_name(i) != def_name(t)))`. -/
def missing_fns (trait_fns impl_fns : List FnDef) : List FnDef :=
  trait_fns.filter (fun t => impl_fns.all (fun i => def_name i != def_name t))

/-- The fixed default indent unit (`DEFAULT_INDENT`). -/
def DEFAULT_INDENT : String := "    "

/-- Embeds the indent derivation: the leading indent of the first impl
item when it exists and has one, otherwise the impl block's own leading
indent (empty when absent) followed by `DEFAULT_INDENT`. -/
def derive_indent (impl_node : ImplBlock) (impl_item_list : ItemList) : String :=
  let first_item := impl_item_list.impl_items.head?
  let first_item_indent := first_item.bind ImplItem.leadingIndent
  match first_item_indent with
  | some s => s
  | none => impl_node.leadingIndent.getD "" ++ DEFAULT_INDENT

/-- Modelled from the spec: `ra_fmt::reindent` is not under `src/`.  Per
the spec's edit-builder step 2, every line of the text after a newline is
re-prefixed with the given indent: each newline of the text becomes the
newline followed by the indent. -/
def reindent (text indent : String) : String :=
  join_sep ("\n" ++ indent) ((split_newlines text.data).map String.mk)

/-- The assembled replacement text of the action closure: the stub of
every missing function, joined with single newlines, prefixed with one
newline, reindented to the derived indent, suffixed with one trailing
newline. -/
def assembled_text (impl_node : ImplBlock) (impl_item_list trait_item_list : ItemList) :
    String :=
  let missing := missing_fns (item_fns trait_item_list) (item_fns impl_item_list)
  let indent := derive_indent impl_node impl_item_list
  reindent ("\n" ++ join_sep "\n" (missing.map build_func_body)) indent ++ "\n"

/-- The replaced range of the action closure: the range of the item
list's last whitespace child when one exists, otherwise the zero-width
range at the covering node's end offset. -/
def changed_range_of (ctx : AssistCtx) (impl_item_list : ItemList) : TextRange :=
  match impl_item_list.lastWhitespaceRange with
  | some r => r
  | none => TextRange.mk ctx.nodeRange.stop ctx.nodeRange.stop

/-- The assist built by the action closure: `edit.replace(changed_range,
func_bodies)` and `edit.set_cursor(changed_range.start() +
replaced_text_range - TextUnit::of_str("\n"))`. -/
def make_assist (ctx : AssistCtx) (impl_node : ImplBlock)
    (impl_item_list trait_item_list : ItemList) : Assist :=
  let func_bodies := assembled_text impl_node impl_item_list trait_item_list
  let changed_range := changed_range_of ctx impl_item_list
  Assist.mk changed_range func_bodies
    (changed_range.start + text_unit_of_str func_bodies - text_unit_of_str "\n")

/-- Embeds `add_missing_impl_members`.  The early-return chain of the
Rust (`?` and the two explicit `return None`) is the nested `Option`
match; the action closure always runs once reached, so the edit and
cursor are computed directly. -/
def add_missing_impl_members (ctx : AssistCtx) : Option Assist :=
  match ctx.implAncestor? with
  | none => none
  | some impl_node =>
    match impl_node.itemList? with
    | none => none
    | some impl_item_list =>
      if ctx.nodeRange.stop == impl_node.range.stop then none
      else
        match ctx.resolvedTrait? with
        | none => none
        | some trait_def =>
          match trait_def.itemList? with
          | none => none
          | some trait_item_list =>
            if (missing_fns (item_fns trait_item_list) (item_fns impl_item_list)).isEmpty then
              none
            else
              some (make_assist ctx impl_node impl_item_list trait_item_list)

/-- Follows claim C3's wording, for comparison with `build_func_body`:
the exact signature text up to and not including the terminator, with
trailing whitespace stripped, followed by the fixed placeholder body. -/
def stub_per_claim (d : FnDef) : String :=
  trim_end (cat ((d.children.takeWhile (fun c => c.kind != NodeKind.SEMI)).map Child.text)) ++
    " { unimplemented!() }"

/-! Concrete fixtures, mirroring the source file's own tests: a trait
`Foo` declaring `foo`, `bar`, `baz`, and an impl for `S` implementing
only `bar`. -/

/-- The trait signature `fn foo(&self);`. -/
def fooSig : FnDef :=
  ⟨[⟨NodeKind.FN_KW, "fn"⟩, ⟨NodeKind.WHITESPACE, " "⟩, ⟨NodeKind.NAME, "foo"⟩,
    ⟨NodeKind.PARAM_LIST, "(&self)"⟩, ⟨NodeKind.SEMI, ";"⟩]⟩

/-- The trait signature `fn bar(&self);`. -/
def barSig : FnDef :=
  ⟨[⟨NodeKind.FN_KW, "fn"⟩, ⟨NodeKind.WHITESPACE, " "⟩, ⟨NodeKind.NAME, "bar"⟩,
    ⟨NodeKind.PARAM_LIST, "(&self)"⟩, ⟨NodeKind.SEMI, ";"⟩]⟩

/-- The trait signature `fn baz(&self);`. -/
def bazSig : FnDef :=
  ⟨[⟨NodeKind.FN_KW, "fn"⟩, ⟨NodeKind.WHITESPACE, " "⟩, ⟨NodeKind.NAME, "baz"⟩,
    ⟨NodeKind.PARAM_LIST, "(&self)"⟩, ⟨NodeKind.SEMI, ";"⟩]⟩

/-- The impl's member `fn bar(&self) {}`. -/
def barImplFn : FnDef :=
  ⟨[⟨NodeKind.FN_KW, "fn"⟩, ⟨NodeKind.WHITESPACE, " "⟩, ⟨NodeKind.NAME, "bar"⟩,
    ⟨NodeKind.PARAM_LIST, "(&self)"⟩, ⟨NodeKind.WHITESPACE, " "⟩, ⟨NodeKind.BLOCK, "{}"⟩]⟩

/-- `barImplFn` with its parameter text renamed: `fn bar(&mut self) {}`. -/
def barImplFn2 : FnDef :=
  ⟨[⟨NodeKind.FN_KW, "fn"⟩, ⟨NodeKind.WHITESPACE, " "⟩, ⟨NodeKind.NAME, "bar"⟩,
    ⟨NodeKind.PARAM_LIST, "(&mut self)"⟩, ⟨NodeKind.WHITESPACE, " "⟩, ⟨NodeKind.BLOCK, "{}"⟩]⟩

/-- The trait's item list: `foo`, `bar`, `baz`, in that order. -/
def traitList : ItemList :=
  ⟨[ListChild.implItem ⟨ImplItemKind.fnDef fooSig, some "    "⟩,
    ListChild.implItem ⟨ImplItemKind.fnDef barSig, some "    "⟩,
    ListChild.implItem ⟨ImplItemKind.fnDef bazSig, some "    "⟩]⟩

/-- The resolved trait `Foo`. -/
def traitFoo : TraitDef := ⟨some traitList⟩

/-- The impl's item list: brace, newline-indent whitespace, `bar`,
trailing newline whitespace, closing brace. -/
def implList : ItemList :=
  ⟨[ListChild.token NodeKind.OTHER ⟨115, 116⟩,
    ListChild.whitespace ⟨116, 121⟩ "\n    ",
    ListChild.implItem ⟨ImplItemKind.fnDef barImplFn, some "    "⟩,
    ListChild.whitespace ⟨137, 138⟩ "\n",
    ListChild.token NodeKind.OTHER ⟨138, 139⟩]⟩

/-- The impl block `impl Foo for S { fn bar(&self) {} }` spanning bytes
100..139, at top level (leading indent empty). -/
def implNode : ImplBlock := ⟨⟨100, 139⟩, some implList, some ""⟩

/-- A context with the cursor's covering node inside the impl's body. -/
def ctxOk : AssistCtx := ⟨⟨121, 137⟩, some implNode, some traitFoo⟩

/-- The assist the model emits on `ctxOk`: stubs for `foo` then `baz`
replacing the trailing whitespace before the closing brace. -/
def assistOk : Assist :=
  ⟨⟨137, 138⟩,
   "\n    fn foo(&self) { unimplemented!() }\n    fn baz(&self) { unimplemented!() }\n",
   215⟩

/-- A context whose covering node ends exactly at the impl block's end
offset (cursor at/after the closing delimiter). -/
def ctxAtEnd : AssistCtx := ⟨⟨139, 139⟩, some implNode, some traitFoo⟩

/-- A signature with a whitespace child between the parameter list and
the semicolon: `fn foo(&self) ;`. -/
def fooWsSemi : FnDef :=
  ⟨[⟨NodeKind.FN_KW, "fn"⟩, ⟨NodeKind.WHITESPACE, " "⟩, ⟨NodeKind.NAME, "foo"⟩,
    ⟨NodeKind.PARAM_LIST, "(&self)"⟩, ⟨NodeKind.WHITESPACE, " "⟩, ⟨NodeKind.SEMI, ";"⟩]⟩

/-- A trait function that carries a default body: `fn foo(&self) { 1 }`. -/
def fooDefault : FnDef :=
  ⟨[⟨NodeKind.FN_KW, "fn"⟩, ⟨NodeKind.WHITESPACE, " "⟩, ⟨NodeKind.NAME, "foo"⟩,
    ⟨NodeKind.PARAM_LIST, "(&self)"⟩, ⟨NodeKind.WHITESPACE, " "⟩, ⟨NodeKind.BLOCK, "{ 1 }"⟩]⟩

/-- A trait whose single member `foo` has a default body. -/
def traitDefaultList : ItemList :=
  ⟨[ListChild.implItem ⟨ImplItemKind.fnDef fooDefault, some "    "⟩]⟩

/-- The resolved trait around `traitDefaultList`. -/
def traitDefault : TraitDef := ⟨some traitDefaultList⟩

/-- The `ctxOk` impl against the default-body trait. -/
def ctxDefault : AssistCtx := ⟨⟨121, 137⟩, some implNode, some traitDefault⟩

/-- The assist the model emits on `ctxDefault`: the default-bodied `foo`
is surfaced and its text re-emitted by the stub synthesizer. -/
def assistDefault : Assist := ⟨⟨137, 138⟩, "\n    fn foo(&self) { 1 }\n", 161⟩

/-- The stub for `foo` as a parsed member of the patched impl. -/
def fooStubFn : FnDef :=
  ⟨[⟨NodeKind.FN_KW, "fn"⟩, ⟨NodeKind.WHITESPACE, " "⟩, ⟨NodeKind.NAME, "foo"⟩,
    ⟨NodeKind.PARAM_LIST, "(&self)"⟩, ⟨NodeKind.WHITESPACE, " "⟩,
    ⟨NodeKind.BLOCK, "{ unimplemented!() }"⟩]⟩

/-- The stub for `baz` as a parsed member of the patched impl. -/
def bazStubFn : FnDef :=
  ⟨[⟨NodeKind.FN_KW, "fn"⟩, ⟨NodeKind.WHITESPACE, " "⟩, ⟨NodeKind.NAME, "baz"⟩,
    ⟨NodeKind.PARAM_LIST, "(&self)"⟩, ⟨NodeKind.WHITESPACE, " "⟩,
    ⟨NodeKind.BLOCK, "{ unimplemented!() }"⟩]⟩

/-- The impl's item list after applying `assistOk` and re-parsing:
`bar`, then the inserted stubs for `foo` and `baz`. -/
def implListFull : ItemList :=
  ⟨[ListChild.token NodeKind.OTHER ⟨115, 116⟩,
    ListChild.whitespace ⟨116, 121⟩ "\n    ",
    ListChild.implItem ⟨ImplItemKind.fnDef barImplFn, some "    "⟩,
    ListChild.whitespace ⟨137, 142⟩ "\n    ",
    ListChild.implItem ⟨ImplItemKind.fnDef fooStubFn, some "    "⟩,
    ListChild.whitespace ⟨176, 181⟩ "\n    ",
    ListChild.implItem ⟨ImplItemKind.fnDef bazStubFn, some "    "⟩,
    ListChild.whitespace ⟨215, 216⟩ "\n",
    ListChild.token NodeKind.OTHER ⟨216, 217⟩]⟩

/-- The impl block after applying the edit. -/
def implNodeFull : ImplBlock := ⟨⟨100, 217⟩, some implListFull, some ""⟩

/-- A rerun context inside the patched impl block. -/
def ctxFull : AssistCtx := ⟨⟨150, 150⟩, some implNodeFull, some traitFoo⟩

/-- A trait declaring only `bar`, which the impl already implements. -/
def traitBarList : ItemList :=
  ⟨[ListChild.implItem ⟨ImplItemKind.fnDef barSig, some "    "⟩]⟩

/-- The resolved trait around `traitBarList`. -/
def traitBar : TraitDef := ⟨some traitBarList⟩

/-- A context whose impl already implements every trait member. -/
def ctxComplete : AssistCtx := ⟨⟨121, 137⟩, some implNode, some traitBar⟩

/-! Helper lemmas shared by the claim theorems. -/

theorem cat_append (a b : List String) : cat (a ++ b) = cat a ++ cat b := by
  induction a with
  | nil => simp [cat]
  | cons s rest ih => simp [cat, ih, String.append_assoc]

theorem mem_missing_fns (tf if_ : List FnDef) (f : FnDef) :
    f ∈ missing_fns tf if_ ↔ f ∈ tf ∧ ∀ i ∈ if_, def_name i ≠ def_name f := by
  simp [missing_fns, List.mem_filter, List.all_eq_true, bne_iff_ne]

theorem missing_fns_sublist (tf if_ : List FnDef) :
    (missing_fns tf if_).Sublist tf :=
  List.filter_sublist tf

theorem missing_fns_names_congr (tf if1 if2 : List FnDef)
    (h : if1.map def_name = if2.map def_name) :
    missing_fns tf if1 = missing_fns tf if2 := by
  unfold missing_fns
  apply List.filter_congr
  intro t _
  have key : ∀ (l : List FnDef),
      (l.all fun i => def_name i != def_name t) =
        (l.map def_name).all (fun n => n != def_name t) := by
    intro l
    induction l with
    | nil => rfl
    | cons x xs ih => simp [List.all_cons, ih]
  rw [key, key, h]

theorem missing_fns_append_names (tf if_ stubs : List FnDef)
    (h : stubs.map def_name = (missing_fns tf if_).map def_name) :
    missing_fns tf (if_ ++ stubs) = [] := by
  rw [List.eq_nil_iff_forall_not_mem]
  intro f hf
  rw [mem_missing_fns] at hf
  obtain ⟨hmem, hnone⟩ := hf
  by_cases hc : ∀ i ∈ if_, def_name i ≠ def_name f
  · have hm : f ∈ missing_fns tf if_ := (mem_missing_fns tf if_ f).mpr ⟨hmem, hc⟩
    have hnm : def_name f ∈ (missing_fns tf if_).map def_name := List.mem_map_of_mem _ hm
    rw [← h] at hnm
    obtain ⟨s, hs, hsn⟩ := List.mem_map.mp hnm
    exact hnone s (List.mem_append_right _ hs) hsn
  · push_neg at hc
    obtain ⟨i, hi, hin⟩ := hc
    exact hnone i (List.mem_append_left _ hi) hin

theorem result_none_of_missing_empty (ctx : AssistCtx) (ib : ImplBlock) (il : ItemList)
    (td : TraitDef) (tl : ItemList)
    (hib : ctx.implAncestor? = some ib) (hil : ib.itemList? = some il)
    (htd : ctx.resolvedTrait? = some td) (htl : td.itemList? = some tl)
    (hm : missing_fns (item_fns tl) (item_fns il) = []) :
    add_missing_impl_members ctx = none := by
  simp only [add_missing_impl_members, hib, hil, htd, htl, hm]
  simp

theorem run_some_inv (ctx : AssistCtx) (a : Assist)
    (h : add_missing_impl_members ctx = some a) :
    ∃ ib il td tl,
      ctx.implAncestor? = some ib ∧ ib.itemList? = some il ∧
      ctx.resolvedTrait? = some td ∧ td.itemList? = some tl ∧
      ctx.nodeRange.stop ≠ ib.range.stop ∧
      missing_fns (item_fns tl) (item_fns il) ≠ [] ∧
      a = make_assist ctx ib il tl := by
  unfold add_missing_impl_members at h
  cases hib : ctx.implAncestor? with
  | none => simp only [hib] at h; exact absurd h (by simp)
  | some ib =>
    simp only [hib] at h
    cases hil : ib.itemList? with
    | none => simp only [hil] at h; exact absurd h (by simp)
    | some il =>
      simp only [hil] at h
      by_cases hg : ctx.nodeRange.stop == ib.range.stop
      · rw [if_pos hg] at h; exact absurd h (by simp)
      · rw [if_neg hg] at h
        cases htd : ctx.resolvedTrait? with
        | none => simp only [htd] at h; exact absurd h (by simp)
        | some td =>
          simp only [htd] at h
          cases htl : td.itemList? with
          | none => simp only [htl] at h; exact absurd h (by simp)
          | some tl =>
            simp only [htl] at h
            by_cases hm : (missing_fns (item_fns tl) (item_fns il)).isEmpty
            · rw [if_pos hm] at h; exact absurd h (by simp)
            · rw [if_neg hm] at h
              refine ⟨ib, il, td, tl, rfl, hil, rfl, htl, ?_, ?_, ?_⟩
              · intro hc; exact hg (by simp [hc])
              · intro hc; rw [hc] at hm; exact hm (by simp)
              · exact (Option.some_inj.mp h).symm

theorem utf8_go_append (l1 l2 : List Char) :
    String.utf8ByteSize.go (l1 ++ l2) = String.utf8ByteSize.go l1 + String.utf8ByteSize.go l2 := by
  induction l1 with
  | nil => simp [String.utf8ByteSize.go]
  | cons c cs ih => simp [String.utf8ByteSize.go, ih]; omega

theorem text_unit_of_str_append (s t : String) :
    text_unit_of_str (s ++ t) = text_unit_of_str s + text_unit_of_str t := by
  cases s with
  | mk a =>
    cases t with
    | mk b =>
      show String.utf8ByteSize.go (a ++ b) = _
      rw [utf8_go_append]
      rfl

theorem dropTrailingWs_of_last_not_ws (cs : List Char)
    (h : ∀ ch, cs.getLast? = some ch → ch.isWhitespace = false) :
    dropTrailingWs cs = cs := by
  induction cs with
  | nil => rfl
  | cons c rest ih =>
    cases rest with
    | nil =>
      have hc := h c rfl
      simp [dropTrailingWs, hc]
    | cons d ds =>
      have hr : dropTrailingWs (d :: ds) = d :: ds := by
        apply ih
        intro ch hch
        exact h ch (by rw [List.getLast?_cons_cons]; exact hch)
      have hstep : dropTrailingWs (c :: d :: ds) =
          match dropTrailingWs (d :: ds) with
          | [] => if c.isWhitespace then [] else [c]
          | r => c :: r := rfl
      rw [hstep, hr]

theorem trim_end_append_placeholder (s : String) :
    trim_end (s ++ " { unimplemented!() }") = s ++ " { unimplemented!() }" := by
  unfold trim_end
  rw [String.data_append]
  rw [dropTrailingWs_of_last_not_ws]
  · cases s with
    | mk a => rfl
  · intro ch hch
    rw [List.getLast?_append] at hch
    have hlast : (" { unimplemented!() }" : String).data.getLast? = some '}' := by decide
    rw [hlast] at hch
    simp at hch
    subst hch
    decide

/-! Claim theorems. -/

/-- C1: the missing set is exactly the trait's function signatures whose
name equals no impl function signature's name; it preserves the trait's
declaration order (it is a sublist of the trait's signature list); and it
depends only on the impl signatures' names, so changing the parameter
text of an already-implemented method never makes it missing. -/
theorem missing_set_is_name_diff (trait_fns impl_fns : List FnDef) :
    (∀ f, f ∈ missing_fns trait_fns impl_fns ↔
      f ∈ trait_fns ∧ ∀ i ∈ impl_fns, def_name i ≠ def_name f) ∧
    (missing_fns trait_fns impl_fns).Sublist trait_fns ∧
    (∀ impl_fns2 : List FnDef, impl_fns.map def_name = impl_fns2.map def_name →
      missing_fns trait_fns impl_fns = missing_fns trait_fns impl_fns2) :=
  ⟨fun f => mem_missing_fns trait_fns impl_fns f,
   missing_fns_sublist trait_fns impl_fns,
   fun impl_fns2 h => missing_fns_names_congr trait_fns impl_fns impl_fns2 h⟩

/-- Witness for C1: renaming `bar`'s parameter list from `(&self)` to
`(&mut self)` leaves the missing set unchanged. -/
theorem missing_set_is_name_diff_witness :
    missing_fns [fooSig, barSig, bazSig] [barImplFn] =
      missing_fns [fooSig, barSig, bazSig] [barImplFn2] :=
  (missing_set_is_name_diff [fooSig, barSig, bazSig] [barImplFn]).2.2 [barImplFn2] (by decide)

/-- C2: the assist yields no result when the covering node has no
`ImplBlock` ancestor, and when the covering node's end offset equals the
impl block's end offset (the gate's end-offset comparison: the cursor
sits at/after the closing delimiter), regardless of missing members. -/
theorem gate_rejects_outside_and_past_block (ctx : AssistCtx) :
    (ctx.implAncestor? = none → add_missing_impl_members ctx = none) ∧
    (∀ ib, ctx.implAncestor? = some ib → ctx.nodeRange.stop = ib.range.stop →
      add_missing_impl_members ctx = none) := by
  constructor
  · intro h
    simp only [add_missing_impl_members, h]
  · intro ib hib hstop
    simp only [add_missing_impl_members, hib]
    cases hil : ib.itemList? with
    | none => simp
    | some il => simp [hstop]

/-- Witness for C2: with the covering node ending at the impl block's
end offset (and missing members existing), the assist yields nothing. -/
theorem gate_rejects_outside_and_past_block_witness :
    add_missing_impl_members ctxAtEnd = none :=
  (gate_rejects_outside_and_past_block ctxAtEnd).2 implNode rfl rfl

/-- C3 counterexample: `fooWsSemi` is `fn foo(&self) ;`, a BodyAbsent
signature with a whitespace child before its semicolon.  The code
replaces the semicolon and only then trims the whole buffer (a no-op,
since the placeholder ends in a brace), so the pre-terminator whitespace
survives; the claim's strip-then-append text differs. -/
theorem stub_claim_counterexample :
    FnDef.terminator fooWsSemi = Terminator.bodyAbsent ∧
    build_func_body fooWsSemi ≠ stub_per_claim fooWsSemi ∧
    build_func_body fooWsSemi = "fn foo(&self)  { unimplemented!() }" ∧
    stub_per_claim fooWsSemi = "fn foo(&self) { unimplemented!() }" :=
  ⟨rfl, by decide, rfl, rfl⟩

/-- C3 amended: for a signature whose terminator semicolon is its last
child, the stub is the exact signature text up to and not including the
terminator — trailing whitespace preserved, not stripped — followed by
the fixed placeholder " { unimplemented!() }"; the trailing-whitespace
strip is applied to the assembled result, where it is a no-op. -/
theorem stub_text_semi_terminator (d : FnDef) (pre : List Child) (c : Child)
    (hsplit : d.children = pre ++ [c]) (hc : c.kind = NodeKind.SEMI)
    (hpre : ∀ x ∈ pre, x.kind ≠ NodeKind.SEMI) :
    build_func_body d = cat (pre.map Child.text) ++ " { unimplemented!() }" := by
  unfold build_func_body body_chunks
  rw [hsplit, List.map_append, cat_append]
  have h1 : pre.map (fun x => if x.kind == NodeKind.SEMI then " { unimplemented!() }" else x.text) =
      pre.map Child.text := by
    apply List.map_congr_left
    intro x hx
    simp [hpre x hx]
  have h2 : cat ([c].map (fun x => if x.kind == NodeKind.SEMI then " { unimplemented!() }" else x.text)) =
      " { unimplemented!() }" := by
    simp [cat, hc]
  rw [h1, h2, trim_end_append_placeholder]

/-- Witness for the amended C3, at the signature `fn foo(&self) ;`. -/
theorem stub_text_semi_terminator_witness :
    build_func_body fooWsSemi =
      cat ([⟨NodeKind.FN_KW, "fn"⟩, ⟨NodeKind.WHITESPACE, " "⟩, ⟨NodeKind.NAME, "foo"⟩,
        ⟨NodeKind.PARAM_LIST, "(&self)"⟩, ⟨NodeKind.WHITESPACE, " "⟩].map Child.text) ++
        " { unimplemented!() }" :=
  stub_text_semi_terminator fooWsSemi
    [⟨NodeKind.FN_KW, "fn"⟩, ⟨NodeKind.WHITESPACE, " "⟩, ⟨NodeKind.NAME, "foo"⟩,
      ⟨NodeKind.PARAM_LIST, "(&self)"⟩, ⟨NodeKind.WHITESPACE, " "⟩]
    ⟨NodeKind.SEMI, ";"⟩ rfl rfl (by decide)

/-- C4 counterexample: `fooDefault` is a trait function with a default
body (terminator BodyPresent) absent from the impl by name; a successful
run surfaces it in the missing set, passes it through `build_func_body`,
and its re-emitted text lands in the edit. -/
theorem body_present_stubbed_counterexample :
    FnDef.terminator fooDefault = Terminator.bodyPresent ∧
    missing_fns (item_fns traitDefaultList) (item_fns implList) = [fooDefault] ∧
    add_missing_impl_members ctxDefault = some assistDefault ∧
    assistDefault.editText = "\n    " ++ build_func_body fooDefault ++ "\n" :=
  ⟨rfl, rfl, rfl, rfl⟩

/-- C4 amended: the diff is name-based regardless of terminator: a trait
signature absent from the impl by name is surfaced for stub synthesis
even when its terminator is BodyPresent, and every signature mapped
through stub synthesis is missing by name (terminator unconstrained). -/
theorem missing_by_name_regardless_of_terminator (tf if_ : List FnDef) (f : FnDef)
    (hmem : f ∈ tf) (habsent : ∀ i ∈ if_, def_name i ≠ def_name f) :
    f ∈ missing_fns tf if_ ∧
    ∀ g ∈ missing_fns tf if_, ∀ i ∈ if_, def_name i ≠ def_name g := by
  constructor
  · exact (mem_missing_fns tf if_ f).mpr ⟨hmem, habsent⟩
  · intro g hg
    exact ((mem_missing_fns tf if_ g).mp hg).2

/-- Witness for the amended C4: the BodyPresent `fooDefault` is in the
missing set against an impl implementing only `bar`. -/
theorem missing_by_name_regardless_of_terminator_witness :
    fooDefault ∈ missing_fns [fooDefault] [barImplFn] :=
  (missing_by_name_regardless_of_terminator [fooDefault] [barImplFn] fooDefault
    (by decide) (by decide)).1

/-- C5: when the impl's item list has a first member and its leading
horizontal whitespace is derivable (`leading_indent` finds a newline
before it, which it does whenever any newline precedes the member in the
document), that whitespace is used verbatim as the stub indent — the
impl block's own node is not consulted; when the item list has no
member, the impl block's own leading indent concatenated with the
four-space default unit is used.  In the remaining degenerate case — an
existing first member with no newline anywhere before it — no newline
precedes the enclosing impl block either, so both leading indents are
absent and the fallback yields the bare default unit. -/
theorem indent_derivation (impl_node : ImplBlock) (l : ItemList) :
    (∀ i s, l.impl_items.head? = some i → i.leadingIndent = some s →
      derive_indent impl_node l = s) ∧
    (l.impl_items.head? = none →
      derive_indent impl_node l = impl_node.leadingIndent.getD "" ++ DEFAULT_INDENT) ∧
    (∀ i, l.impl_items.head? = some i → i.leadingIndent = none →
      impl_node.leadingIndent = none →
      derive_indent impl_node l = DEFAULT_INDENT) := by
  refine ⟨?_, ?_, ?_⟩
  · intro i s hi hs
    simp [derive_indent, hi, hs]
  · intro h
    simp [derive_indent, h]
  · intro i hi hnone hib
    simp [derive_indent, hi, hnone, hib]

/-- Witness for C5: the impl whose first member is indented with four
spaces yields exactly that indent. -/
theorem indent_derivation_witness : derive_indent implNode implList = "    " :=
  (indent_derivation implNode implList).1
    ⟨ImplItemKind.fnDef barImplFn, some "    "⟩ "    " rfl rfl

/-- C6: in a successful run the edit's range is the full range of the
item list's last whitespace child when one exists; otherwise it is the
zero-width range at the covering node's current end offset. -/
theorem edit_range_placement (ctx : AssistCtx) (ib : ImplBlock) (il : ItemList) (a : Assist)
    (hib : ctx.implAncestor? = some ib) (hil : ib.itemList? = some il)
    (h : add_missing_impl_members ctx = some a) :
    (∀ r, il.lastWhitespaceRange = some r → a.editRange = r) ∧
    (il.lastWhitespaceRange = none →
      a.editRange = TextRange.mk ctx.nodeRange.stop ctx.nodeRange.stop) := by
  obtain ⟨ib2, il2, td, tl, hib2, hil2, _, _, _, _, ha⟩ := run_some_inv ctx a h
  rw [hib] at hib2
  have hibe : ib = ib2 := Option.some_inj.mp hib2
  subst hibe
  rw [hil] at hil2
  have hile : il = il2 := Option.some_inj.mp hil2
  subst hile
  subst ha
  constructor
  · intro r hr
    simp [make_assist, changed_range_of, hr]
  · intro hr
    simp [make_assist, changed_range_of, hr]

/-- Witness for C6: on `ctxOk` the edit replaces the trailing whitespace
node's range 137..138. -/
theorem edit_range_placement_witness : assistOk.editRange = TextRange.mk 137 138 :=
  (edit_range_placement ctxOk implNode implList assistOk rfl rfl rfl).1
    (TextRange.mk 137 138) rfl

/-- C7: in a successful run the cursor offset equals the edit range's
start plus the byte length of the replacement text minus the byte length
of "\n"; equivalently, the replacement text ends in a newline and the
cursor sits immediately before it, right after the last stub's closing
delimiter. -/
theorem cursor_before_final_newline (ctx : AssistCtx) (a : Assist)
    (h : add_missing_impl_members ctx = some a) :
    a.cursor = a.editRange.start + text_unit_of_str a.editText - text_unit_of_str "\n" ∧
    ∃ s, a.editText = s ++ "\n" ∧ a.cursor = a.editRange.start + text_unit_of_str s := by
  obtain ⟨ib, il, td, tl, _, _, _, _, _, _, ha⟩ := run_some_inv ctx a h
  subst ha
  constructor
  · rfl
  · refine ⟨reindent ("\n" ++ join_sep "\n" ((missing_fns (item_fns tl) (item_fns il)).map build_func_body)) (derive_indent ib il), rfl, ?_⟩
    show (changed_range_of ctx il).start + text_unit_of_str (assembled_text ib il tl) - text_unit_of_str "\n" =
      (changed_range_of ctx il).start + text_unit_of_str (reindent ("\n" ++ join_sep "\n" ((missing_fns (item_fns tl) (item_fns il)).map build_func_body)) (derive_indent ib il))
    have hs : assembled_text ib il tl =
        reindent ("\n" ++ join_sep "\n" ((missing_fns (item_fns tl) (item_fns il)).map build_func_body)) (derive_indent ib il) ++ "\n" := rfl
    rw [hs, text_unit_of_str_append]
    have h1 : text_unit_of_str "\n" = 1 := rfl
    rw [h1]
    omega

/-- Witness for C7, on the successful run over `ctxOk`. -/
theorem cursor_before_final_newline_witness :
    assistOk.cursor =
      assistOk.editRange.start + text_unit_of_str assistOk.editText - text_unit_of_str "\n" :=
  (cursor_before_final_newline ctxOk assistOk rfl).1

/-- C8: when the missing set is empty — every trait function's name is
already present among the impl's functions — the run yields no result,
with no constraint on where the covering node sits; the model is a total
function into `Option`, so every failure is the absence of a result. -/
theorem empty_missing_not_applicable (ctx : AssistCtx) (ib : ImplBlock) (il : ItemList)
    (td : TraitDef) (tl : ItemList)
    (hib : ctx.implAncestor? = some ib) (hil : ib.itemList? = some il)
    (htd : ctx.resolvedTrait? = some td) (htl : td.itemList? = some tl)
    (hm : missing_fns (item_fns tl) (item_fns il) = []) :
    add_missing_impl_members ctx = none :=
  result_none_of_missing_empty ctx ib il td tl hib hil htd htl hm

/-- Witness for C8: an impl already implementing the whole trait (here
`bar` alone) yields no result with the cursor inside the block. -/
theorem empty_missing_not_applicable_witness :
    add_missing_impl_members ctxComplete = none :=
  empty_missing_not_applicable ctxComplete implNode implList traitBar traitBarList
    rfl rfl rfl rfl rfl

/-- C9: rerunning on the output of a successful run yields no result: if
the run on `ctx` succeeds, and `ctx2` sees the same trait functions while
its impl functions are the previous ones extended with stubs carrying
exactly the missing functions' names (which is what applying the edit and
re-parsing produces), then the rerun returns none. -/
theorem rerun_after_apply_not_applicable (ctx : AssistCtx)
    (ib : ImplBlock) (il : ItemList) (td : TraitDef) (tl : ItemList)
    (_hib : ctx.implAncestor? = some ib) (_hil : ib.itemList? = some il)
    (_htd : ctx.resolvedTrait? = some td) (_htl : td.itemList? = some tl)
    (_hsucc : (add_missing_impl_members ctx).isSome = true)
    (ctx2 : AssistCtx) (ib2 : ImplBlock) (il2 : ItemList) (td2 : TraitDef) (tl2 : ItemList)
    (hib2 : ctx2.implAncestor? = some ib2) (hil2 : ib2.itemList? = some il2)
    (htd2 : ctx2.resolvedTrait? = some td2) (htl2 : td2.itemList? = some tl2)
    (htrait : item_fns tl2 = item_fns tl)
    (stubs : List FnDef)
    (himpl : item_fns il2 = item_fns il ++ stubs)
    (hnames : stubs.map def_name = (missing_fns (item_fns tl) (item_fns il)).map def_name) :
    add_missing_impl_members ctx2 = none := by
  apply result_none_of_missing_empty ctx2 ib2 il2 td2 tl2 hib2 hil2 htd2 htl2
  rw [htrait, himpl]
  exact missing_fns_append_names (item_fns tl) (item_fns il) stubs hnames

/-- Witness for C9: applying `assistOk`'s edit to `ctxOk`'s document
yields the impl of `ctxFull`, on which the rerun is not applicable. -/
theorem rerun_after_apply_not_applicable_witness :
    add_missing_impl_members ctxFull = none :=
  rerun_after_apply_not_applicable ctxOk implNode implList traitFoo traitList
    rfl rfl rfl rfl rfl ctxFull implNodeFull implListFull traitFoo traitList
    rfl rfl rfl rfl rfl [fooStubFn, bazStubFn] rfl (by decide)

/-- C10: only function declarations participate in the diff: inserting a
non-function item anywhere in an item list leaves the extracted function
list unchanged, hence the missing set computed with that list on either
the trait's or the impl's side is unchanged. -/
theorem only_fn_items_in_diff (pre post : List ListChild) (k : ImplItemKind)
    (li : Option String) (hk : fn_def_opt k = none) :
    item_fns ⟨pre ++ ListChild.implItem ⟨k, li⟩ :: post⟩ = item_fns ⟨pre ++ post⟩ ∧
    (∀ il : ItemList,
      missing_fns (item_fns ⟨pre ++ ListChild.implItem ⟨k, li⟩ :: post⟩) (item_fns il) =
        missing_fns (item_fns ⟨pre ++ post⟩) (item_fns il)) ∧
    (∀ tl : ItemList,
      missing_fns (item_fns tl) (item_fns ⟨pre ++ ListChild.implItem ⟨k, li⟩ :: post⟩) =
        missing_fns (item_fns tl) (item_fns ⟨pre ++ post⟩)) := by
  have h1 : item_fns ⟨pre ++ ListChild.implItem ⟨k, li⟩ :: post⟩ = item_fns ⟨pre ++ post⟩ := by
    unfold item_fns ItemList.impl_items
    simp [List.filterMap_append, hk]
  exact ⟨h1, fun il => by rw [h1], fun tl => by rw [h1]⟩

/-- Witness for C10: prepending an associated const to the trait's item
list leaves the extracted function list unchanged. -/
theorem only_fn_items_in_diff_witness :
    item_fns ⟨[] ++ ListChild.implItem ⟨ImplItemKind.constDef "const A: u8 = 0;", some "    "⟩ :: traitList.children⟩ =
      item_fns ⟨[] ++ traitList.children⟩ :=
  (only_fn_items_in_diff [] traitList.children
    (ImplItemKind.constDef "const A: u8 = 0;") (some "    ") rfl).1
